import Mathlib

/-
Verification of the best-route selection engine of src/hooks/useBestV3Trade.ts:
the two selectors useBestV3TradeExactIn and useBestV3TradeExactOut, their
aggregation state machine (LOADING / INVALID / NO_ROUTE_FOUND / VALID / SYNCING)
and their best-route reducers with the exact-fraction fewer-hops tie-break.

Amounts are the raw quoter integers (unsigned big integers in the data model),
modelled as Nat.  The sdk Fraction / Percent arithmetic is modelled exactly:
subtraction forms the cross-multiplied numerator and denominator, and the
comparisons lessThan / greaterThan cross-multiply without normalising, as the
sdk does.
-/

namespace UniswapV3

/-- Tokens are identified abstractly; the engine only ever reads the length of a
token path, so an abstract identifier suffices. -/
abbrev Token := Nat

/-- A currency is either ether or a specific token, mirroring the sdk split that
the hook inspects with instanceof when wrapping the computed amount. -/
inductive Currency where
  | ether : Currency
  | token : Token → Currency
deriving DecidableEq, Repr

/-- A route is an ordered token path through pools; hop count is
tokenPath.length - 1. -/
structure Route where
  tokenPath : List Token
deriving DecidableEq, Repr

/-- One slot of the multicall quote results, as the hook consumes it: an
optional raw quoted amount (amountOut for exact-in calls, amountIn for
exact-out calls) plus the loading / syncing / valid flags. -/
structure CallState where
  result : Option Nat
  loading : Bool
  syncing : Bool
  valid : Bool
deriving DecidableEq, Repr

/-- Exact fraction with integer numerator and denominator.  Arithmetic and
comparisons copy the sdk Fraction: no normalisation, no division. -/
structure Fraction where
  num : Int
  den : Int
deriving DecidableEq, Repr

/-- Fraction subtraction, cross-multiplied as the sdk does. -/
def Fraction.sub (a b : Fraction) : Fraction :=
  { num := a.num * b.den - b.num * a.den, den := a.den * b.den }

/-- The sdk lessThan comparison: cross-multiplied strict order. -/
def Fraction.lessThan (a b : Fraction) : Prop :=
  a.num * b.den < b.num * a.den

/-- The sdk greaterThan comparison: cross-multiplied strict order. -/
def Fraction.greaterThan (a b : Fraction) : Prop :=
  b.num * a.den < a.num * b.den

instance (a b : Fraction) : Decidable (a.lessThan b) :=
  inferInstanceAs (Decidable (a.num * b.den < b.num * a.den))

instance (a b : Fraction) : Decidable (a.greaterThan b) :=
  inferInstanceAs (Decidable (b.num * a.den < a.num * b.den))

/-- Modelled from the spec: ONE_BIPS is one basis point, the exact rational
1/10000 (the constants module is outside the provided sources). -/
def ONE_BIPS : Fraction := { num := 1, den := 10000 }

/-- Modelled from the spec: ONE_HUNDRED_PERCENT is the ratio representing 100
percent, the exact rational 1/1 (the constants module is outside the provided
sources).  BETTER_TRADE_LESS_HOPS_THRESHOLD is likewise a configured constant;
following the spec it is passed to the selectors as an explicit threshold
parameter. -/
def ONE_HUNDRED_PERCENT : Fraction := { num := 1, den := 1 }

/-- Swap direction of a constructed trade. -/
inductive TradeType where
  | EXACT_INPUT : TradeType
  | EXACT_OUTPUT : TradeType
deriving DecidableEq, Repr

/-- The V3TradeState enum of the hook. -/
inductive V3TradeState where
  | LOADING : V3TradeState
  | INVALID : V3TradeState
  | NO_ROUTE_FOUND : V3TradeState
  | VALID : V3TradeState
  | SYNCING : V3TradeState
deriving DecidableEq, Repr

/-- An amount of a currency: the wrapped currency plus the raw integer
amount.  TokenAmount and the ether amount share this representation. -/
structure CurrencyAmount where
  currency : Currency
  raw : Nat
deriving DecidableEq, Repr

/-- Wrapping of a raw quoted amount in a currency: a TokenAmount when the
currency is a token, the ether wrapper otherwise (the instanceof branch of the
hook). -/
def mkCurrencyAmount : Currency → Nat → CurrencyAmount
  | Currency.token t, amt => { currency := Currency.token t, raw := amt }
  | Currency.ether, amt => { currency := Currency.ether, raw := amt }

/-- The trade object built by Trade.createUncheckedTrade. -/
structure Trade where
  route : Route
  tradeType : TradeType
  inputAmount : CurrencyAmount
  outputAmount : CurrencyAmount
deriving DecidableEq, Repr

/-- The value returned by either selector. -/
structure TradeResult where
  state : V3TradeState
  trade : Option Trade
deriving DecidableEq, Repr

/-- Accumulator of the exact-in reduce. -/
structure BestRouteIn where
  bestRoute : Option Route
  amountOut : Option Nat
deriving DecidableEq, Repr

/-- Accumulator of the exact-out reduce. -/
structure BestRouteOut where
  bestRoute : Option Route
  amountIn : Option Nat
deriving DecidableEq, Repr

/-- The value of bestRoute?.tokenPath?.length, with a missing route rendered
as 0: both undefined and 0 are falsy in the truthiness test the hook applies
to it, and it is compared numerically only under that test. -/
def hopsOf : Option Route → Nat
  | none => 0
  | some r => r.tokenPath.length

/-- One step of the exact-in reduce callback (lines 58-84 of
useBestV3Trade.ts).  The JS truthiness test on hopsCurrentBest is rendered as a
nonzero test, a missing best route contributing 0 (falsy like undefined). -/
def exactInStep (threshold : Fraction) (currentBest : BestRouteIn)
    (p : CallState × Route) : BestRouteIn :=
  match p.1.result with
  | none => currentBest
  | some resultAmount =>
    match currentBest.amountOut with
    | none => { bestRoute := some p.2, amountOut := some resultAmount }
    | some bestAmount =>
      let hopsCurrentBest : Nat := hopsOf currentBest.bestRoute
      let hopsResult : Nat := p.2.tokenPath.length
      if (¬ bestAmount < resultAmount ∧ hopsCurrentBest ≠ 0 ∧
            (Fraction.sub { num := (bestAmount : Int), den := (resultAmount : Int) }
              ONE_BIPS).lessThan threshold ∧
            hopsResult < hopsCurrentBest) ∨ bestAmount < resultAmount
      then { bestRoute := some p.2, amountOut := some resultAmount }
      else currentBest

/-- One step of the exact-out reduce callback (lines 152-180 of
useBestV3Trade.ts). -/
def exactOutStep (threshold : Fraction) (currentBest : BestRouteOut)
    (p : CallState × Route) : BestRouteOut :=
  match p.1.result with
  | none => currentBest
  | some resultAmount =>
    match currentBest.amountIn with
    | none => { bestRoute := some p.2, amountIn := some resultAmount }
    | some bestAmount =>
      let hopsCurrentBest : Nat := hopsOf currentBest.bestRoute
      let hopsResult : Nat := p.2.tokenPath.length
      if (hopsCurrentBest ≠ 0 ∧ ¬ resultAmount < bestAmount ∧
            (ONE_HUNDRED_PERCENT.sub
              { num := (resultAmount : Int), den := (bestAmount : Int) }).greaterThan threshold ∧
            hopsResult < hopsCurrentBest) ∨ resultAmount < bestAmount
      then { bestRoute := some p.2, amountIn := some resultAmount }
      else currentBest

/-- The exact-in reduce over the positionally aligned quote and route lists,
from the absent initial accumulator. -/
def bestRouteReduceIn (threshold : Fraction) (routes : List Route)
    (quotesResults : List CallState) : BestRouteIn :=
  (quotesResults.zip routes).foldl (exactInStep threshold)
    { bestRoute := none, amountOut := none }

/-- The exact-out reduce over the positionally aligned quote and route lists,
from the absent initial accumulator. -/
def bestRouteReduceOut (threshold : Fraction) (routes : List Route)
    (quotesResults : List CallState) : BestRouteOut :=
  (quotesResults.zip routes).foldl (exactOutStep threshold)
    { bestRoute := none, amountIn := none }

/-- The exact-in selector (useBestV3TradeExactIn): the external collaborators
of the hook (route provider and quote batch provider) are passed in as the
routes, routesLoading and quotesResults arguments. -/
def useBestV3TradeExactIn (threshold : Fraction) (amountIn : Option CurrencyAmount)
    (currencyOut : Option Currency) (routes : List Route) (routesLoading : Bool)
    (quotesResults : List CallState) : TradeResult :=
  match amountIn, currencyOut with
  | some aIn, some cOut =>
    if routesLoading || quotesResults.any (fun q => q.loading) then
      { state := V3TradeState.LOADING, trade := none }
    else
      let best := bestRouteReduceIn threshold routes quotesResults
      match best.bestRoute, best.amountOut with
      | some bestRoute, some amountOut =>
        { state :=
            if quotesResults.any (fun q => q.syncing) then V3TradeState.SYNCING
            else V3TradeState.VALID,
          trade := some
            { route := bestRoute, tradeType := TradeType.EXACT_INPUT,
              inputAmount := aIn,
              outputAmount := mkCurrencyAmount cOut amountOut } }
      | _, _ => { state := V3TradeState.NO_ROUTE_FOUND, trade := none }
  | _, _ => { state := V3TradeState.INVALID, trade := none }

/-- The exact-out selector (useBestV3TradeExactOut): differs from exact-in by
the extra any-invalid test in the INVALID guard and by the mirrored reducer. -/
def useBestV3TradeExactOut (threshold : Fraction) (currencyIn : Option Currency)
    (amountOut : Option CurrencyAmount) (routes : List Route) (routesLoading : Bool)
    (quotesResults : List CallState) : TradeResult :=
  match amountOut, currencyIn with
  | some aOut, some cIn =>
    if quotesResults.any (fun q => !q.valid) then
      { state := V3TradeState.INVALID, trade := none }
    else if routesLoading || quotesResults.any (fun q => q.loading) then
      { state := V3TradeState.LOADING, trade := none }
    else
      let best := bestRouteReduceOut threshold routes quotesResults
      match best.bestRoute, best.amountIn with
      | some bestRoute, some amountIn =>
        { state :=
            if quotesResults.any (fun q => q.syncing) then V3TradeState.SYNCING
            else V3TradeState.VALID,
          trade := some
            { route := bestRoute, tradeType := TradeType.EXACT_OUTPUT,
              inputAmount := mkCurrencyAmount cIn amountIn,
              outputAmount := aOut } }
      | _, _ => { state := V3TradeState.NO_ROUTE_FOUND, trade := none }
  | _, _ => { state := V3TradeState.INVALID, trade := none }

/-- The hop count of the current best is known, in the sense of the truthiness
test of the hook: a best route is present and its token path is nonempty. -/
def hopsKnown : Option Route → Prop
  | none => False
  | some r => r.tokenPath.length ≠ 0

/-- Adoption condition of the exact-in reducer as the specification states it:
the candidate output R = amt strictly beats the best output B = b, or B is at
least R, the hop count of the best is known, the ratio B/R minus one bip is
below the threshold, and the candidate has strictly fewer hops. -/
def adoptCondIn (threshold : Fraction) (best : Option Route) (b amt : Nat)
    (cand : Route) : Prop :=
  b < amt ∨
    (amt ≤ b ∧ hopsKnown best ∧
      (Fraction.sub { num := (b : Int), den := (amt : Int) } ONE_BIPS).lessThan threshold ∧
      ∃ br, best = some br ∧ cand.tokenPath.length < br.tokenPath.length)

/-- Adoption condition of the exact-out reducer as the specification states it:
the candidate required input R = amt is strictly below the best B = b, or B is
at most R, the hop count of the best is known, one hundred percent minus the
ratio R/B exceeds the threshold, and the candidate has strictly fewer hops. -/
def adoptCondOut (threshold : Fraction) (best : Option Route) (b amt : Nat)
    (cand : Route) : Prop :=
  amt < b ∨
    (b ≤ amt ∧ hopsKnown best ∧
      (ONE_HUNDRED_PERCENT.sub
        { num := (amt : Int), den := (b : Int) }).greaterThan threshold ∧
      ∃ br, best = some br ∧ cand.tokenPath.length < br.tokenPath.length)

/-- Sample one-hop route for concrete evaluations. -/
def routeOneHop : Route := { tokenPath := [0, 1] }

/-- Sample three-hop route for concrete evaluations. -/
def routeThreeHop : Route := { tokenPath := [0, 1, 2, 3] }

/-- Sample settled quote slot carrying amount n. -/
def quoteAt (n : Nat) : CallState :=
  { result := some n, loading := false, syncing := false, valid := true }

/-- The fifty-bips threshold of the specification scenarios, 50/10000. -/
def thresholdFifty : Fraction := { num := 50, den := 10000 }

/-- C1: the exact-in reduce folds the aligned pairs left to right from the
absent accumulator; a pair with an absent amount is skipped, the first usable
pair is adopted unconditionally, and afterwards a candidate replaces the best
exactly under the stated outright-better or known-hops ratio condition. -/
theorem claim_C1_exactIn_reducer (threshold : Fraction) (routes : List Route)
    (quotesResults : List CallState) (currentBest : BestRouteIn) (q : CallState)
    (r : Route) :
    bestRouteReduceIn threshold routes quotesResults =
      (quotesResults.zip routes).foldl (exactInStep threshold)
        { bestRoute := none, amountOut := none } ∧
    (q.result = none → exactInStep threshold currentBest (q, r) = currentBest) ∧
    (∀ amt, q.result = some amt → currentBest.amountOut = none →
      exactInStep threshold currentBest (q, r) =
        { bestRoute := some r, amountOut := some amt }) ∧
    (∀ amt b, q.result = some amt → currentBest.amountOut = some b →
      (adoptCondIn threshold currentBest.bestRoute b amt r →
        exactInStep threshold currentBest (q, r) =
          { bestRoute := some r, amountOut := some amt }) ∧
      (¬ adoptCondIn threshold currentBest.bestRoute b amt r →
        exactInStep threshold currentBest (q, r) = currentBest)) := by
  refine ⟨rfl, ?_, ?_, ?_⟩
  · intro h
    simp [exactInStep, h]
  · intro amt h1 h2
    simp [exactInStep, h1, h2]
  · intro amt b h1 h2
    obtain ⟨br, ao⟩ := currentBest
    change ao = some b at h2
    subst h2
    have hiff :
        ((¬ b < amt ∧ hopsOf br ≠ 0 ∧
            (Fraction.sub { num := (b : Int), den := (amt : Int) } ONE_BIPS).lessThan
              threshold ∧
            r.tokenPath.length < hopsOf br) ∨ b < amt) ↔
          adoptCondIn threshold br b amt r := by
      cases br with
      | none => simp [adoptCondIn, hopsKnown, hopsOf]
      | some br2 =>
        simp only [adoptCondIn, hopsKnown, hopsOf, Nat.not_lt, Option.some.injEq]
        constructor
        · rintro (⟨hle, hne, hth, hfew⟩ | hlt)
          · exact Or.inr ⟨hle, hne, hth, br2, rfl, hfew⟩
          · exact Or.inl hlt
        · rintro (hlt | ⟨hle, hne, hth, br3, hbr3, hfew⟩)
          · exact Or.inr hlt
          · subst hbr3
            exact Or.inl ⟨hle, hne, hth, hfew⟩
    constructor
    · intro hc
      simp only [exactInStep, h1]
      rw [if_pos (hiff.mpr hc)]
    · intro hc
      simp only [exactInStep, h1]
      rw [if_neg (fun hcc => hc (hiff.mp hcc))]

/-- C1 witness: with best output 1000 on the three-hop route, the candidate
output 1001 on the one-hop route is adopted at the fifty-bips threshold. -/
theorem claim_C1_exactIn_reducer_witness :
    exactInStep thresholdFifty
        { bestRoute := some routeThreeHop, amountOut := some 1000 }
        (quoteAt 1001, routeOneHop) =
      { bestRoute := some routeOneHop, amountOut := some 1001 } :=
  ((claim_C1_exactIn_reducer thresholdFifty [] []
      { bestRoute := some routeThreeHop, amountOut := some 1000 }
      (quoteAt 1001) routeOneHop).2.2.2 1001 1000 rfl rfl).1
    (Or.inl (by decide))

/-- C2: the exact-out reduce folds the aligned pairs left to right from the
absent accumulator; a pair with an absent amount is skipped, the first usable
pair is adopted unconditionally, and afterwards a candidate replaces the best
exactly under the stated outright-better or known-hops ratio condition. -/
theorem claim_C2_exactOut_reducer (threshold : Fraction) (routes : List Route)
    (quotesResults : List CallState) (currentBest : BestRouteOut) (q : CallState)
    (r : Route) :
    bestRouteReduceOut threshold routes quotesResults =
      (quotesResults.zip routes).foldl (exactOutStep threshold)
        { bestRoute := none, amountIn := none } ∧
    (q.result = none → exactOutStep threshold currentBest (q, r) = currentBest) ∧
    (∀ amt, q.result = some amt → currentBest.amountIn = none →
      exactOutStep threshold currentBest (q, r) =
        { bestRoute := some r, amountIn := some amt }) ∧
    (∀ amt b, q.result = some amt → currentBest.amountIn = some b →
      (adoptCondOut threshold currentBest.bestRoute b amt r →
        exactOutStep threshold currentBest (q, r) =
          { bestRoute := some r, amountIn := some amt }) ∧
      (¬ adoptCondOut threshold currentBest.bestRoute b amt r →
        exactOutStep threshold currentBest (q, r) = currentBest)) := by
  refine ⟨rfl, ?_, ?_, ?_⟩
  · intro h
    simp [exactOutStep, h]
  · intro amt h1 h2
    simp [exactOutStep, h1, h2]
  · intro amt b h1 h2
    obtain ⟨br, ai⟩ := currentBest
    change ai = some b at h2
    subst h2
    have hiff :
        ((hopsOf br ≠ 0 ∧ ¬ amt < b ∧
            (ONE_HUNDRED_PERCENT.sub
              { num := (amt : Int), den := (b : Int) }).greaterThan threshold ∧
            r.tokenPath.length < hopsOf br) ∨ amt < b) ↔
          adoptCondOut threshold br b amt r := by
      cases br with
      | none => simp [adoptCondOut, hopsKnown, hopsOf]
      | some br2 =>
        simp only [adoptCondOut, hopsKnown, hopsOf, Nat.not_lt, Option.some.injEq]
        constructor
        · rintro (⟨hne, hle, hth, hfew⟩ | hlt)
          · exact Or.inr ⟨hle, hne, hth, br2, rfl, hfew⟩
          · exact Or.inl hlt
        · rintro (hlt | ⟨hle, hne, hth, br3, hbr3, hfew⟩)
          · exact Or.inr hlt
          · subst hbr3
            exact Or.inl ⟨hne, hle, hth, hfew⟩
    constructor
    · intro hc
      simp only [exactOutStep, h1]
      rw [if_pos (hiff.mpr hc)]
    · intro hc
      simp only [exactOutStep, h1]
      rw [if_neg (fun hcc => hc (hiff.mp hcc))]

/-- C2 witness: with best required input 1001 on the three-hop route, the
candidate requiring 1000 on the one-hop route is adopted at the fifty-bips
threshold. -/
theorem claim_C2_exactOut_reducer_witness :
    exactOutStep thresholdFifty
        { bestRoute := some routeThreeHop, amountIn := some 1001 }
        (quoteAt 1000, routeOneHop) =
      { bestRoute := some routeOneHop, amountIn := some 1000 } :=
  ((claim_C2_exactOut_reducer thresholdFifty [] []
      { bestRoute := some routeThreeHop, amountIn := some 1001 }
      (quoteAt 1000) routeOneHop).2.2.2 1000 1001 rfl rfl).1
    (Or.inl (by decide))

/-- C8: whenever the candidate quoted output strictly exceeds the current best
output, the exact-in step adopts the candidate, for every threshold and for any
hop counts on either side. -/
theorem claim_C8_monotone_exactIn (threshold : Fraction) (currentBest : BestRouteIn)
    (q : CallState) (r : Route) (b amt : Nat)
    (hb : currentBest.amountOut = some b) (hq : q.result = some amt)
    (hlt : b < amt) :
    exactInStep threshold currentBest (q, r) =
      { bestRoute := some r, amountOut := some amt } := by
  obtain ⟨br, ao⟩ := currentBest
  change ao = some b at hb
  subst hb
  simp only [exactInStep, hq]
  rw [if_pos (Or.inr hlt)]

/-- C8 witness: at the fifty-bips threshold a candidate of output 1001 over the
one-hop route displaces a best of output 1000 over the same hop count. -/
theorem claim_C8_monotone_exactIn_witness :
    exactInStep thresholdFifty
        { bestRoute := some routeOneHop, amountOut := some 1000 }
        (quoteAt 1001, routeOneHop) =
      { bestRoute := some routeOneHop, amountOut := some 1001 } :=
  claim_C8_monotone_exactIn thresholdFifty
    { bestRoute := some routeOneHop, amountOut := some 1000 }
    (quoteAt 1001) routeOneHop 1000 1001 rfl rfl (by decide)

/-- C10: both selectors are pure functions of their inputs: two invocations on
identical route sets and quote batches give identical selection results. -/
theorem claim_C10_deterministic (threshold : Fraction) (a : Option CurrencyAmount)
    (cOut cIn : Option Currency) (aOut : Option CurrencyAmount)
    (routes : List Route) (rl : Bool) (qs : List CallState) :
    useBestV3TradeExactIn threshold a cOut routes rl qs =
      useBestV3TradeExactIn threshold a cOut routes rl qs ∧
    useBestV3TradeExactOut threshold cIn aOut routes rl qs =
      useBestV3TradeExactOut threshold cIn aOut routes rl qs :=
  ⟨rfl, rfl⟩

/-- C5: at the documented exact-out scenario (best input 1000 over three hops,
candidate input 1001 over one hop, threshold fifty bips, shortfall about ten
bips and hence within the threshold) the code keeps the current best: the
fewer-hops branch compares ONE_HUNDRED_PERCENT minus 1001/1000, a negative
quantity, against the nonnegative threshold with greaterThan, so it cannot
fire. -/
theorem claim_C5_exactOut_scenario_eval :
    exactOutStep thresholdFifty
        { bestRoute := some routeThreeHop, amountIn := some 1000 }
        (quoteAt 1001, routeOneHop) =
      { bestRoute := some routeThreeHop, amountIn := some 1000 } := by
  decide

/-- A step of the exact-in reduce leaves the accumulator unchanged when the
quote amount is absent. -/
theorem exactInStep_skip (threshold : Fraction) (cur : BestRouteIn)
    (q : CallState) (r : Route) (h : q.result = none) :
    exactInStep threshold cur (q, r) = cur := by
  simp [exactInStep, h]

/-- A step of the exact-out reduce leaves the accumulator unchanged when the
quote amount is absent. -/
theorem exactOutStep_skip (threshold : Fraction) (cur : BestRouteOut)
    (q : CallState) (r : Route) (h : q.result = none) :
    exactOutStep threshold cur (q, r) = cur := by
  simp [exactOutStep, h]

/-- The exact-in overall state exactly as the specification orders the
transition rule, first match wins. -/
def claimStateExactIn (threshold : Fraction) (amountIn : Option CurrencyAmount)
    (currencyOut : Option Currency) (routes : List Route) (routesLoading : Bool)
    (quotesResults : List CallState) : V3TradeState :=
  if amountIn = none ∨ currencyOut = none then V3TradeState.INVALID
  else if routesLoading = true ∨ ∃ q ∈ quotesResults, q.loading = true then
    V3TradeState.LOADING
  else if (bestRouteReduceIn threshold routes quotesResults).bestRoute = none ∨
      (bestRouteReduceIn threshold routes quotesResults).amountOut = none then
    V3TradeState.NO_ROUTE_FOUND
  else if ∃ q ∈ quotesResults, q.syncing = true then V3TradeState.SYNCING
  else V3TradeState.VALID

/-- C3: the exact-in selector computes its state by the strictly ordered
first-match-wins rule (INVALID, LOADING, NO_ROUTE_FOUND, SYNCING, VALID), and
in particular a single loading quote forces LOADING even when another quote
already carries a usable winning amount. -/
theorem claim_C3_exactIn_states :
    (∀ (threshold : Fraction) (a : Option CurrencyAmount) (c : Option Currency)
        (routes : List Route) (rl : Bool) (qs : List CallState),
      (useBestV3TradeExactIn threshold a c routes rl qs).state =
        claimStateExactIn threshold a c routes rl qs) ∧
    (∀ (threshold : Fraction) (a0 : CurrencyAmount) (c0 : Currency)
        (routes : List Route) (rl : Bool) (qs : List CallState) (q : CallState),
      q ∈ qs → q.loading = true →
      (useBestV3TradeExactIn threshold (some a0) (some c0) routes rl qs).state =
        V3TradeState.LOADING) := by
  constructor
  · intro threshold a c routes rl qs
    cases a with
    | none => simp [useBestV3TradeExactIn, claimStateExactIn]
    | some a0 =>
      cases c with
      | none => simp [useBestV3TradeExactIn, claimStateExactIn]
      | some c0 =>
        by_cases hl : (rl || qs.any fun q => q.loading) = true
        · have hl2 : rl = true ∨ ∃ q ∈ qs, q.loading = true := by
            simpa [List.any_eq_true] using hl
          simp [useBestV3TradeExactIn, claimStateExactIn, hl, hl2]
        · have hl2 : ¬ (rl = true ∨ ∃ q ∈ qs, q.loading = true) := by
            simpa [List.any_eq_true] using hl
          cases hbr : (bestRouteReduceIn threshold routes qs).bestRoute with
          | none =>
            simp [useBestV3TradeExactIn, claimStateExactIn, hl, hl2, hbr]
          | some brr =>
            cases hao : (bestRouteReduceIn threshold routes qs).amountOut with
            | none =>
              simp [useBestV3TradeExactIn, claimStateExactIn, hl, hl2, hbr, hao]
            | some a1 =>
              by_cases hs : (qs.any fun q => q.syncing) = true
              · have hs2 : ∃ q ∈ qs, q.syncing = true := by
                  simpa [List.any_eq_true] using hs
                simp [useBestV3TradeExactIn, claimStateExactIn, hl, hl2, hbr, hao,
                  hs, hs2]
              · have hs2 : ¬ ∃ q ∈ qs, q.syncing = true := by
                  simpa [List.any_eq_true] using hs
                simp [useBestV3TradeExactIn, claimStateExactIn, hl, hl2, hbr, hao,
                  hs, hs2]
  · intro threshold a0 c0 routes rl qs q hq hql
    have hl : (rl || qs.any fun qq => qq.loading) = true := by
      simp [List.any_eq_true]
      exact Or.inr ⟨q, hq, hql⟩
    simp [useBestV3TradeExactIn, hl]

/-- C3 witness: a batch holding one loading quote and one settled usable quote
is LOADING. -/
theorem claim_C3_exactIn_states_witness :
    (useBestV3TradeExactIn thresholdFifty
        (some { currency := Currency.ether, raw := 5 }) (some Currency.ether)
        [routeOneHop, routeThreeHop] false
        [{ result := none, loading := true, syncing := false, valid := true },
         quoteAt 7]).state = V3TradeState.LOADING :=
  claim_C3_exactIn_states.2 thresholdFifty
    { currency := Currency.ether, raw := 5 } Currency.ether
    [routeOneHop, routeThreeHop] false
    [{ result := none, loading := true, syncing := false, valid := true }, quoteAt 7]
    { result := none, loading := true, syncing := false, valid := true }
    (List.mem_cons_self _ _) rfl

/-- C4: the exact-out selector returns INVALID with an absent trade as soon as
any quote is marked invalid, in the same guard as the missing-argument check
and ahead of the loading check; the exact-in selector has no such check and
stays VALID on an invalid-marked but usable quote. -/
theorem claim_C4_exactOut_invalid (threshold : Fraction) (cIn : Option Currency)
    (aOut : Option CurrencyAmount) (routes : List Route) (rl : Bool)
    (qs : List CallState) (q : CallState) (hq : q ∈ qs) (hv : q.valid = false) :
    useBestV3TradeExactOut threshold cIn aOut routes rl qs =
      { state := V3TradeState.INVALID, trade := none } ∧
    (useBestV3TradeExactIn thresholdFifty
        (some { currency := Currency.ether, raw := 5 }) (some Currency.ether)
        [routeOneHop] false
        [{ result := some 7, loading := false, syncing := false,
           valid := false }]).state = V3TradeState.VALID := by
  constructor
  · have hinv : (qs.any fun qq => !qq.valid) = true := by
      simp [List.any_eq_true]
      exact ⟨q, hq, hv⟩
    cases aOut with
    | none => simp [useBestV3TradeExactOut]
    | some a1 =>
      cases cIn with
      | none => simp [useBestV3TradeExactOut]
      | some c1 => simp [useBestV3TradeExactOut, hinv]
  · decide

/-- C4 witness: a batch holding both an invalid entry and a loading entry is
INVALID, not LOADING. -/
theorem claim_C4_exactOut_invalid_witness :
    useBestV3TradeExactOut thresholdFifty (some Currency.ether)
        (some { currency := Currency.ether, raw := 5 }) [routeOneHop, routeThreeHop]
        false
        [{ result := some 7, loading := false, syncing := false, valid := false },
         { result := none, loading := true, syncing := false, valid := true }] =
      { state := V3TradeState.INVALID, trade := none } :=
  (claim_C4_exactOut_invalid thresholdFifty (some Currency.ether)
      (some { currency := Currency.ether, raw := 5 }) [routeOneHop, routeThreeHop]
      false
      [{ result := some 7, loading := false, syncing := false, valid := false },
       { result := none, loading := true, syncing := false, valid := true }]
      { result := some 7, loading := false, syncing := false, valid := false }
      (List.mem_cons_self _ _) rfl).1

/-- The exact-in reduce keeps its accumulator when every quote amount along the
fold is absent. -/
theorem foldl_exactInStep_of_results_none (threshold : Fraction)
    (pairs : List (CallState × Route)) (cur : BestRouteIn)
    (h : ∀ p ∈ pairs, p.1.result = none) :
    pairs.foldl (exactInStep threshold) cur = cur := by
  induction pairs generalizing cur with
  | nil => rfl
  | cons p rest ih =>
    obtain ⟨q, r⟩ := p
    rw [List.foldl_cons,
      exactInStep_skip threshold cur q r (h (q, r) (List.mem_cons_self _ _))]
    exact ih cur (fun p2 hp2 => h p2 (List.mem_cons_of_mem _ hp2))

/-- The exact-out reduce keeps its accumulator when every quote amount along
the fold is absent. -/
theorem foldl_exactOutStep_of_results_none (threshold : Fraction)
    (pairs : List (CallState × Route)) (cur : BestRouteOut)
    (h : ∀ p ∈ pairs, p.1.result = none) :
    pairs.foldl (exactOutStep threshold) cur = cur := by
  induction pairs generalizing cur with
  | nil => rfl
  | cons p rest ih =>
    obtain ⟨q, r⟩ := p
    rw [List.foldl_cons,
      exactOutStep_skip threshold cur q r (h (q, r) (List.mem_cons_self _ _))]
    exact ih cur (fun p2 hp2 => h p2 (List.mem_cons_of_mem _ hp2))

/-- C7: with both arguments present, routes settled, nothing loading (and for
exact-out everything valid), a batch in which no quote carries a usable
amount — the empty batch included — yields NO_ROUTE_FOUND with an absent
trade; absent-amount entries are skipped by the reduce steps rather than
treated as an error. -/
theorem claim_C7_no_route_found (threshold : Fraction) (aIn : CurrencyAmount)
    (cOut cIn : Currency) (aOut : CurrencyAmount) (routes routes2 : List Route)
    (qs qs2 : List CallState)
    (hl : ∀ q ∈ qs, q.loading = false) (hr : ∀ q ∈ qs, q.result = none)
    (hl2 : ∀ q ∈ qs2, q.loading = false) (hv2 : ∀ q ∈ qs2, q.valid = true)
    (hr2 : ∀ q ∈ qs2, q.result = none) :
    useBestV3TradeExactIn threshold (some aIn) (some cOut) routes false qs =
      { state := V3TradeState.NO_ROUTE_FOUND, trade := none } ∧
    useBestV3TradeExactOut threshold (some cIn) (some aOut) routes2 false qs2 =
      { state := V3TradeState.NO_ROUTE_FOUND, trade := none } ∧
    (∀ (cur : BestRouteIn) (qq : CallState) (rr : Route), qq.result = none →
      exactInStep threshold cur (qq, rr) = cur) ∧
    (∀ (cur : BestRouteOut) (qq : CallState) (rr : Route), qq.result = none →
      exactOutStep threshold cur (qq, rr) = cur) := by
  refine ⟨?_, ?_, fun cur qq rr h => exactInStep_skip threshold cur qq rr h,
    fun cur qq rr h => exactOutStep_skip threshold cur qq rr h⟩
  · have hload : (qs.any fun q => q.loading) = false := by
      simp [List.any_eq_false]
      exact fun q hq => hl q hq
    have hfold : bestRouteReduceIn threshold routes qs =
        { bestRoute := none, amountOut := none } := by
      unfold bestRouteReduceIn
      exact foldl_exactInStep_of_results_none threshold _ _
        (fun p hp => hr p.1 (List.of_mem_zip hp).1)
    simp [useBestV3TradeExactIn, hload, hfold]
  · have hload : (qs2.any fun q => q.loading) = false := by
      simp [List.any_eq_false]
      exact fun q hq => hl2 q hq
    have hvalid : (qs2.any fun q => !q.valid) = false := by
      simp [List.any_eq_false]
      exact fun q hq => hv2 q hq
    have hfold : bestRouteReduceOut threshold routes2 qs2 =
        { bestRoute := none, amountIn := none } := by
      unfold bestRouteReduceOut
      exact foldl_exactOutStep_of_results_none threshold _ _
        (fun p hp => hr2 p.1 (List.of_mem_zip hp).1)
    simp [useBestV3TradeExactOut, hload, hvalid, hfold]

/-- C7 witness: the empty route set with the empty quote batch yields
NO_ROUTE_FOUND for both selectors. -/
theorem claim_C7_no_route_found_witness :
    useBestV3TradeExactIn thresholdFifty
        (some { currency := Currency.ether, raw := 5 }) (some Currency.ether)
        [] false [] =
      { state := V3TradeState.NO_ROUTE_FOUND, trade := none } ∧
    useBestV3TradeExactOut thresholdFifty (some Currency.ether)
        (some { currency := Currency.ether, raw := 5 }) [] false [] =
      { state := V3TradeState.NO_ROUTE_FOUND, trade := none } := by
  have h := claim_C7_no_route_found thresholdFifty
    { currency := Currency.ether, raw := 5 } Currency.ether Currency.ether
    { currency := Currency.ether, raw := 5 } [] [] [] []
    (by simp) (by simp) (by simp) (by simp) (by simp)
  exact ⟨h.1, h.2.1⟩

/-- Both branches of the amount wrapper produce the record of the given
currency and raw amount. -/
theorem mkCurrencyAmount_eq (c : Currency) (amt : Nat) :
    mkCurrencyAmount c amt = { currency := c, raw := amt } := by
  cases c <;> rfl

/-- Trade characterization of the exact-in selector: the trade is present
exactly in the VALID and SYNCING outcomes, and it then carries the winning
route, the exact-input direction, the caller amount and the wrapped quoted
amount. -/
theorem exactIn_trade_char (threshold : Fraction) (a : Option CurrencyAmount)
    (cOut : Option Currency) (routes : List Route) (rl : Bool)
    (qs : List CallState) :
    ((useBestV3TradeExactIn threshold a cOut routes rl qs).trade.isSome = true ↔
      (useBestV3TradeExactIn threshold a cOut routes rl qs).state =
          V3TradeState.VALID ∨
      (useBestV3TradeExactIn threshold a cOut routes rl qs).state =
          V3TradeState.SYNCING) ∧
    (∀ tr, (useBestV3TradeExactIn threshold a cOut routes rl qs).trade = some tr →
      tr.tradeType = TradeType.EXACT_INPUT ∧ a = some tr.inputAmount ∧
      (bestRouteReduceIn threshold routes qs).bestRoute = some tr.route ∧
      (bestRouteReduceIn threshold routes qs).amountOut =
        some tr.outputAmount.raw ∧
      cOut = some tr.outputAmount.currency) := by
  cases a with
  | none => simp [useBestV3TradeExactIn]
  | some a0 =>
    cases cOut with
    | none => simp [useBestV3TradeExactIn]
    | some c0 =>
      by_cases hl : (rl || qs.any fun q => q.loading) = true
      · simp [useBestV3TradeExactIn, hl]
      · cases hbr : (bestRouteReduceIn threshold routes qs).bestRoute with
        | none => simp [useBestV3TradeExactIn, hl, hbr]
        | some brr =>
          cases hao : (bestRouteReduceIn threshold routes qs).amountOut with
          | none => simp [useBestV3TradeExactIn, hl, hbr, hao]
          | some a1 =>
            have hres : useBestV3TradeExactIn threshold (some a0) (some c0)
                routes rl qs =
                { state :=
                    if (qs.any fun q => q.syncing) = true then V3TradeState.SYNCING
                    else V3TradeState.VALID,
                  trade := some
                    { route := brr, tradeType := TradeType.EXACT_INPUT,
                      inputAmount := a0,
                      outputAmount := mkCurrencyAmount c0 a1 } } := by
              simp [useBestV3TradeExactIn, hl, hbr, hao]
            rw [hres]
            constructor
            · by_cases hs : (qs.any fun q => q.syncing) = true <;> simp [hs]
            · intro tr htr
              simp only [Option.some.injEq] at htr
              subst htr
              simp [hbr, hao, mkCurrencyAmount_eq]

/-- Trade characterization of the exact-out selector: the trade is present
exactly in the VALID and SYNCING outcomes, and it then carries the winning
route, the exact-output direction, the wrapped quoted input and the caller
amount. -/
theorem exactOut_trade_char (threshold : Fraction) (cIn : Option Currency)
    (aOut : Option CurrencyAmount) (routes : List Route) (rl : Bool)
    (qs : List CallState) :
    ((useBestV3TradeExactOut threshold cIn aOut routes rl qs).trade.isSome = true ↔
      (useBestV3TradeExactOut threshold cIn aOut routes rl qs).state =
          V3TradeState.VALID ∨
      (useBestV3TradeExactOut threshold cIn aOut routes rl qs).state =
          V3TradeState.SYNCING) ∧
    (∀ tr, (useBestV3TradeExactOut threshold cIn aOut routes rl qs).trade = some tr →
      tr.tradeType = TradeType.EXACT_OUTPUT ∧ aOut = some tr.outputAmount ∧
      (bestRouteReduceOut threshold routes qs).bestRoute = some tr.route ∧
      (bestRouteReduceOut threshold routes qs).amountIn =
        some tr.inputAmount.raw ∧
      cIn = some tr.inputAmount.currency) := by
  cases aOut with
  | none => simp [useBestV3TradeExactOut]
  | some a0 =>
    cases cIn with
    | none => simp [useBestV3TradeExactOut]
    | some c0 =>
      by_cases hv : (qs.any fun q => !q.valid) = true
      · simp [useBestV3TradeExactOut, hv]
      · by_cases hl : (rl || qs.any fun q => q.loading) = true
        · simp [useBestV3TradeExactOut, hv, hl]
        · cases hbr : (bestRouteReduceOut threshold routes qs).bestRoute with
          | none => simp [useBestV3TradeExactOut, hv, hl, hbr]
          | some brr =>
            cases hao : (bestRouteReduceOut threshold routes qs).amountIn with
            | none => simp [useBestV3TradeExactOut, hv, hl, hbr, hao]
            | some a1 =>
              have hres : useBestV3TradeExactOut threshold (some c0) (some a0)
                  routes rl qs =
                  { state :=
                      if (qs.any fun q => q.syncing) = true then V3TradeState.SYNCING
                      else V3TradeState.VALID,
                    trade := some
                      { route := brr, tradeType := TradeType.EXACT_OUTPUT,
                        inputAmount := mkCurrencyAmount c0 a1,
                        outputAmount := a0 } } := by
                simp [useBestV3TradeExactOut, hv, hl, hbr, hao]
              rw [hres]
              constructor
              · by_cases hs : (qs.any fun q => q.syncing) = true <;> simp [hs]
              · intro tr htr
                simp only [Option.some.injEq] at htr
                subst htr
                simp [hbr, hao, mkCurrencyAmount_eq]

/-- C9: for both selectors the trade is present exactly when the state is
VALID or SYNCING, and the trade is then fully constructed: winning route,
direction, input amount and output amount. -/
theorem claim_C9_trade_presence (threshold : Fraction) (a : Option CurrencyAmount)
    (cOut cIn : Option Currency) (aOut : Option CurrencyAmount)
    (routes : List Route) (rl : Bool) (qs : List CallState) :
    ((useBestV3TradeExactIn threshold a cOut routes rl qs).trade.isSome = true ↔
      (useBestV3TradeExactIn threshold a cOut routes rl qs).state =
          V3TradeState.VALID ∨
      (useBestV3TradeExactIn threshold a cOut routes rl qs).state =
          V3TradeState.SYNCING) ∧
    (∀ tr, (useBestV3TradeExactIn threshold a cOut routes rl qs).trade = some tr →
      tr.tradeType = TradeType.EXACT_INPUT ∧ a = some tr.inputAmount ∧
      (bestRouteReduceIn threshold routes qs).bestRoute = some tr.route ∧
      (bestRouteReduceIn threshold routes qs).amountOut =
        some tr.outputAmount.raw ∧
      cOut = some tr.outputAmount.currency) ∧
    ((useBestV3TradeExactOut threshold cIn aOut routes rl qs).trade.isSome = true ↔
      (useBestV3TradeExactOut threshold cIn aOut routes rl qs).state =
          V3TradeState.VALID ∨
      (useBestV3TradeExactOut threshold cIn aOut routes rl qs).state =
          V3TradeState.SYNCING) ∧
    (∀ tr, (useBestV3TradeExactOut threshold cIn aOut routes rl qs).trade = some tr →
      tr.tradeType = TradeType.EXACT_OUTPUT ∧ aOut = some tr.outputAmount ∧
      (bestRouteReduceOut threshold routes qs).bestRoute = some tr.route ∧
      (bestRouteReduceOut threshold routes qs).amountIn =
        some tr.inputAmount.raw ∧
      cIn = some tr.inputAmount.currency) :=
  ⟨(exactIn_trade_char threshold a cOut routes rl qs).1,
   (exactIn_trade_char threshold a cOut routes rl qs).2,
   (exactOut_trade_char threshold cIn aOut routes rl qs).1,
   (exactOut_trade_char threshold cIn aOut routes rl qs).2⟩

/-- C9 witness: at a concrete VALID outcome the constructed trade carries the
direction, the caller amount, the winning route and the wrapped amount. -/
theorem claim_C9_trade_presence_witness :
    ({ route := routeOneHop, tradeType := TradeType.EXACT_INPUT,
       inputAmount := { currency := Currency.ether, raw := 5 },
       outputAmount := { currency := Currency.ether, raw := 7 } } : Trade).tradeType =
        TradeType.EXACT_INPUT ∧
      (some { currency := Currency.ether, raw := 5 } : Option CurrencyAmount) =
        some { currency := Currency.ether, raw := 5 } ∧
      (bestRouteReduceIn thresholdFifty [routeOneHop] [quoteAt 7]).bestRoute =
        some routeOneHop ∧
      (bestRouteReduceIn thresholdFifty [routeOneHop] [quoteAt 7]).amountOut =
        some 7 ∧
      (some Currency.ether : Option Currency) = some Currency.ether :=
  (claim_C9_trade_presence thresholdFifty
      (some { currency := Currency.ether, raw := 5 }) (some Currency.ether)
      (some Currency.ether) (some { currency := Currency.ether, raw := 5 })
      [routeOneHop] false [quoteAt 7]).2.1
    { route := routeOneHop, tradeType := TradeType.EXACT_INPUT,
      inputAmount := { currency := Currency.ether, raw := 5 },
      outputAmount := { currency := Currency.ether, raw := 7 } } rfl

/-- The usable entries of the aligned quote and route pairs: the route and the
amount of every pair whose quote amount is present, in list order. -/
def usableOut (pairs : List (CallState × Route)) : List (Route × Nat) :=
  pairs.filterMap (fun p => p.1.result.map (fun a => (p.2, a)))

/-- The leftmost entry of strictly minimal amount: the head wins unless the
tail attains a strictly smaller amount. -/
def leftmostMin : List (Route × Nat) → Option (Route × Nat)
  | [] => none
  | (r, a) :: rest =>
    match leftmostMin rest with
    | none => some (r, a)
    | some (r2, a2) => if a2 < a then some (r2, a2) else some (r, a)

/-- Unfolding of leftmostMin at a cons cell, phrased on the tail result. -/
theorem leftmostMin_cons_eq (r0 : Route) (a0 : Nat) (l : List (Route × Nat)) :
    leftmostMin ((r0, a0) :: l) =
      (match leftmostMin l with
        | none => some (r0, a0)
        | some p2 => if p2.2 < a0 then some p2 else some (r0, a0)) := by
  cases h : leftmostMin l with
  | none => simp [leftmostMin, h]
  | some p2 =>
    obtain ⟨r2, a2⟩ := p2
    simp [leftmostMin, h]

/-- leftmostMin of a nonempty list is some entry of amount at most the head
amount. -/
theorem leftmostMin_head_le (l : List (Route × Nat)) (r : Route) (a : Nat) :
    ∃ p, leftmostMin ((r, a) :: l) = some p ∧ p.2 ≤ a := by
  rw [leftmostMin_cons_eq]
  cases h : leftmostMin l with
  | none => exact ⟨(r, a), rfl, le_refl a⟩
  | some p2 =>
    by_cases hlt : p2.2 < a
    · exact ⟨p2, by simp [hlt], le_of_lt hlt⟩
    · exact ⟨(r, a), by simp [hlt], le_refl a⟩

/-- An entry whose amount is at least the head amount never changes the
leftmost strict minimum. -/
theorem leftmostMin_drop_ge (r0 : Route) (a0 : Nat) (r : Route) (a : Nat)
    (l : List (Route × Nat)) (hle : a0 ≤ a) :
    leftmostMin ((r0, a0) :: (r, a) :: l) = leftmostMin ((r0, a0) :: l) := by
  rw [leftmostMin_cons_eq, leftmostMin_cons_eq r0 a0 l, leftmostMin_cons_eq]
  cases h : leftmostMin l with
  | none => simp [Nat.not_lt.mpr hle]
  | some p2 =>
    by_cases h2 : p2.2 < a
    · simp [h2]
    · have h3 : ¬ a < a0 := Nat.not_lt.mpr hle
      have h4 : ¬ p2.2 < a0 := Nat.not_lt.mpr (le_trans hle (Nat.not_lt.mp h2))
      simp [h2, h3, h4]

/-- The fewer-hops branch of the exact-out step is unsatisfiable for a
nonnegative threshold: when the candidate amount is at least the current best,
the step keeps the current best. -/
theorem exactOutStep_keep_of_le (threshold : Fraction) (hnum : 0 ≤ threshold.num)
    (hden : 0 < threshold.den) (br : Option Route) (b : Nat) (q : CallState)
    (r : Route) (amt : Nat) (hq : q.result = some amt) (hle : b ≤ amt) :
    exactOutStep threshold { bestRoute := br, amountIn := some b } (q, r) =
      { bestRoute := br, amountIn := some b } := by
  simp only [exactOutStep, hq]
  rw [if_neg]
  rintro (⟨hne, hnlt, hth, hfew⟩ | hlt)
  · simp only [Fraction.greaterThan, Fraction.sub, ONE_HUNDRED_PERCENT, one_mul,
      mul_one] at hth
    have hba : ((b : Int) - (amt : Int)) ≤ 0 := by
      omega
    have h2 : ((b : Int) - (amt : Int)) * threshold.den ≤ 0 := by
      nlinarith
    have h3 : (0 : Int) ≤ threshold.num * (b : Int) := by
      positivity
    linarith
  · exact absurd hlt (Nat.not_lt.mpr hle)

/-- From a present accumulator the exact-out fold computes the leftmost strict
minimum of the accumulator amount and the usable amounts, for a nonnegative
threshold. -/
theorem foldl_exactOutStep_from_some (threshold : Fraction)
    (hnum : 0 ≤ threshold.num) (hden : 0 < threshold.den)
    (pairs : List (CallState × Route)) :
    ∀ (r0 : Route) (a0 : Nat),
      pairs.foldl (exactOutStep threshold)
          { bestRoute := some r0, amountIn := some a0 } =
        (match leftmostMin ((r0, a0) :: usableOut pairs) with
          | none => { bestRoute := none, amountIn := none }
          | some (r, a) => { bestRoute := some r, amountIn := some a }) := by
  induction pairs with
  | nil =>
    intro r0 a0
    simp [usableOut, leftmostMin]
  | cons p rest ih =>
    intro r0 a0
    obtain ⟨q, r⟩ := p
    rw [List.foldl_cons]
    cases hq : q.result with
    | none =>
      rw [exactOutStep_skip threshold _ q r hq, ih r0 a0]
      simp [usableOut, List.filterMap_cons, hq]
    | some a =>
      have husable : usableOut ((q, r) :: rest) = (r, a) :: usableOut rest := by
        simp [usableOut, List.filterMap_cons, hq]
      by_cases hlt : a < a0
      · have hstep : exactOutStep threshold
            { bestRoute := some r0, amountIn := some a0 } (q, r) =
            { bestRoute := some r, amountIn := some a } := by
          simp only [exactOutStep, hq]
          rw [if_pos (Or.inr hlt)]
        rw [hstep, ih r a, husable]
        obtain ⟨p2, hp2, hp2le⟩ := leftmostMin_head_le (usableOut rest) r a
        rw [hp2, leftmostMin_cons_eq, hp2]
        have : p2.2 < a0 := lt_of_le_of_lt hp2le hlt
        simp [this]
      · rw [exactOutStep_keep_of_le threshold hnum hden (some r0) a0 q r a hq
            (Nat.not_lt.mp hlt),
          ih r0 a0, husable,
          leftmostMin_drop_ge r0 a0 r a (usableOut rest) (Nat.not_lt.mp hlt)]

/-- The exact-out fold from the absent accumulator computes the leftmost
usable entry of strictly minimal amount, for a nonnegative threshold. -/
theorem foldl_exactOutStep_leftmostMin (threshold : Fraction)
    (hnum : 0 ≤ threshold.num) (hden : 0 < threshold.den)
    (pairs : List (CallState × Route)) :
    pairs.foldl (exactOutStep threshold) { bestRoute := none, amountIn := none } =
      (match leftmostMin (usableOut pairs) with
        | none => { bestRoute := none, amountIn := none }
        | some (r, a) => { bestRoute := some r, amountIn := some a }) := by
  induction pairs with
  | nil => simp [usableOut, leftmostMin]
  | cons p rest ih =>
    obtain ⟨q, r⟩ := p
    rw [List.foldl_cons]
    cases hq : q.result with
    | none =>
      rw [exactOutStep_skip threshold _ q r hq, ih]
      simp [usableOut, List.filterMap_cons, hq]
    | some a =>
      have hstep : exactOutStep threshold
          { bestRoute := none, amountIn := none } (q, r) =
          { bestRoute := some r, amountIn := some a } := by
        simp [exactOutStep, hq]
      rw [hstep, foldl_exactOutStep_from_some threshold hnum hden rest r a]
      simp [usableOut, List.filterMap_cons, hq]

/-- C6: with a nonnegative threshold the exact-out fewer-hops branch never
fires: whenever the candidate amount R is at least the current best B, the
quantity ONE_HUNDRED_PERCENT minus R/B is nonpositive and not above the
threshold, the step keeps the current best, and the whole reduction returns the
first route in list order attaining the strict minimum usable input amount,
regardless of hop counts. -/
theorem claim_C6_exactOut_branch_dead (threshold : Fraction)
    (hnum : 0 ≤ threshold.num) (hden : 0 < threshold.den) :
    (∀ b amt : Nat, b ≤ amt →
      (ONE_HUNDRED_PERCENT.sub { num := (amt : Int), den := (b : Int) }).num ≤ 0 ∧
      0 ≤ (ONE_HUNDRED_PERCENT.sub { num := (amt : Int), den := (b : Int) }).den ∧
      ¬ (ONE_HUNDRED_PERCENT.sub
          { num := (amt : Int), den := (b : Int) }).greaterThan threshold) ∧
    (∀ (br : Option Route) (b : Nat) (q : CallState) (r : Route) (amt : Nat),
      q.result = some amt → b ≤ amt →
      exactOutStep threshold { bestRoute := br, amountIn := some b } (q, r) =
        { bestRoute := br, amountIn := some b }) ∧
    (∀ (routes : List Route) (quotesResults : List CallState),
      bestRouteReduceOut threshold routes quotesResults =
        (match leftmostMin (usableOut (quotesResults.zip routes)) with
          | none => { bestRoute := none, amountIn := none }
          | some (r, a) => { bestRoute := some r, amountIn := some a })) := by
  refine ⟨?_, ?_, ?_⟩
  · intro b amt hle
    refine ⟨?_, ?_, ?_⟩
    · simp only [Fraction.sub, ONE_HUNDRED_PERCENT, one_mul, mul_one]
      omega
    · simp only [Fraction.sub, ONE_HUNDRED_PERCENT, one_mul]
      positivity
    · intro hth
      simp only [Fraction.greaterThan, Fraction.sub, ONE_HUNDRED_PERCENT, one_mul,
        mul_one] at hth
      have hba : ((b : Int) - (amt : Int)) ≤ 0 := by
        omega
      have h2 : ((b : Int) - (amt : Int)) * threshold.den ≤ 0 := by
        nlinarith
      have h3 : (0 : Int) ≤ threshold.num * (b : Int) := by
        positivity
      linarith
  · intro br b q r amt hq hle
    exact exactOutStep_keep_of_le threshold hnum hden br b q r amt hq hle
  · intro routes quotesResults
    unfold bestRouteReduceOut
    exact foldl_exactOutStep_leftmostMin threshold hnum hden _

/-- C6 witness: at the fifty-bips threshold, on quotes 1000 (three-hop route)
then 1001 (one-hop route), the reduction returns the three-hop route of input
1000, the leftmost strict minimum, despite the one-hop alternative. -/
theorem claim_C6_exactOut_branch_dead_witness :
    (0 : Int) ≤ thresholdFifty.num ∧ (0 : Int) < thresholdFifty.den ∧
    bestRouteReduceOut thresholdFifty [routeThreeHop, routeOneHop]
        [quoteAt 1000, quoteAt 1001] =
      { bestRoute := some routeThreeHop, amountIn := some 1000 } := by
  refine ⟨by decide, by decide, ?_⟩
  rw [(claim_C6_exactOut_branch_dead thresholdFifty (by decide) (by decide)).2.2
    [routeThreeHop, routeOneHop] [quoteAt 1000, quoteAt 1001]]
  decide

end UniswapV3
